import Mathlib

/-!
Shallow embedding of the inspektio browser extension's storage logic.

Source files modelled here:
- `src/services/storage.service.ts` (class `StorageService`): per-tab
  `localStorage`/`sessionStorage` CRUD plus JSON export/import.
- `src/adapters/cookies.ts` (class `BrowserCookieAdapter`): cookie API
  wrapper with URL inference.
- the cookie dashboard Svelte view: derived domain list, filter pipeline
  and sort comparator.

Modelling conventions:
- Promises that resolve/reject become `Except String` values; the string is
  the thrown `Error`'s message.
- The page storage of one tab is an insertion-ordered association list of
  entries with (in well-formed states) pairwise distinct keys, matching the
  Web Storage contract.
- JavaScript string comparison (`<`, `>` on strings, and `localeCompare` as
  used by the service, taken codepoint-wise) is modelled by a lexicographic
  comparison of the character lists of Lean strings, written out explicitly
  so that it evaluates by kernel reduction.
- `JSON.parse` / `JSON.stringify` are browser builtins, not repository code;
  they appear as explicit function parameters (`parse`, `stringify`) of the
  operations that call them.
-/

namespace Inspektio

/-! ### JavaScript string comparison -/

/-- Lexicographic three-way comparison of character lists, mirroring the
relational operators JavaScript applies to strings (code-unit order). -/
def charListCmp : List Char → List Char → Ordering
  | [], [] => .eq
  | [], _ :: _ => .lt
  | _ :: _, [] => .gt
  | a :: as, b :: bs => if a < b then .lt else if b < a then .gt else charListCmp as bs

/-- Integer value of a comparison, as a JS comparator returns it. -/
def ordInt : Ordering → Int
  | .lt => -1
  | .eq => 0
  | .gt => 1

/-- Three-way string comparison returning -1, 0 or 1, the shape produced by
the dashboard's comparator (`aVal < bVal` / `aVal > bVal`) and by
`localeCompare` taken codepoint-wise. -/
def strComparison (a b : String) : Int := ordInt (charListCmp a.data b.data)

theorem charListCmp_self (x : List Char) : charListCmp x x = .eq := by
  induction x with
  | nil => rfl
  | cons a as ih => simp [charListCmp, lt_irrefl, ih]

theorem charListCmp_swap (x : List Char) : ∀ y, charListCmp y x = (charListCmp x y).swap := by
  induction x with
  | nil => intro y; cases y <;> rfl
  | cons a as ih =>
    intro y
    cases y with
    | nil => rfl
    | cons b bs =>
      by_cases h1 : a < b
      · simp [charListCmp, h1, lt_asymm h1, Ordering.swap]
      · by_cases h2 : b < a
        · simp [charListCmp, h1, h2, Ordering.swap]
        · simp [charListCmp, h1, h2, ih bs]

theorem charListCmp_eq_iff (x : List Char) : ∀ y, charListCmp x y = .eq ↔ x = y := by
  induction x with
  | nil => intro y; cases y <;> simp [charListCmp]
  | cons a as ih =>
    intro y
    cases y with
    | nil => simp [charListCmp]
    | cons b bs =>
      constructor
      · intro h
        by_cases h1 : a < b
        · simp [charListCmp, h1] at h
        · by_cases h2 : b < a
          · simp [charListCmp, h1, h2] at h
          · have hab : a = b := le_antisymm (le_of_not_lt h2) (le_of_not_lt h1)
            have htail : as = bs := (ih bs).1 (by simpa [charListCmp, h1, h2] using h)
            rw [hab, htail]
      · intro h
        injection h with h1 h2
        subst h1; subst h2
        exact charListCmp_self (a :: as)

theorem charListCmp_lt_trans :
    ∀ x y z : List Char, charListCmp x y = .lt → charListCmp y z = .lt → charListCmp x z = .lt := by
  intro x
  induction x with
  | nil =>
    intro y z hxy hyz
    cases y with
    | nil => simp [charListCmp] at hxy
    | cons b bs =>
      cases z with
      | nil => simp [charListCmp] at hyz
      | cons c cs => simp [charListCmp]
  | cons a as ih =>
    intro y z hxy hyz
    cases y with
    | nil => simp [charListCmp] at hxy
    | cons b bs =>
      cases z with
      | nil => simp [charListCmp] at hyz
      | cons c cs =>
        simp only [charListCmp] at hxy hyz ⊢
        by_cases h1 : a < b
        · by_cases h2 : b < c
          · simp [lt_trans h1 h2]
          · by_cases h3 : c < b
            · simp [h2, h3] at hyz
            · have hbc : b = c := le_antisymm (le_of_not_lt h3) (le_of_not_lt h2)
              subst hbc; simp [h1]
        · by_cases h2 : b < a
          · simp [h1, h2] at hxy
          · have hab : a = b := le_antisymm (le_of_not_lt h2) (le_of_not_lt h1)
            subst hab
            simp only [lt_irrefl, if_false] at hxy
            by_cases h3 : a < c
            · simp [h3]
            · by_cases h4 : c < a
              · simp [h3, h4] at hyz
              · have hac : a = c := le_antisymm (le_of_not_lt h4) (le_of_not_lt h3)
                subst hac
                simp only [lt_irrefl, if_false] at hyz ⊢
                exact ih bs cs (by simpa [h1] using hxy) (by simpa [h3] using hyz)

theorem strComparison_neg (a b : String) : strComparison b a = -strComparison a b := by
  unfold strComparison
  rw [charListCmp_swap]
  cases charListCmp a.data b.data <;> rfl

theorem strComparison_eq_zero (a b : String) : strComparison a b = 0 ↔ a = b := by
  unfold strComparison
  have hdata : a.data = b.data ↔ a = b := by
    constructor
    · intro h
      cases a with
      | mk da =>
        cases b with
        | mk db => exact congrArg String.mk h
    · intro h; rw [h]
  rw [← hdata, ← charListCmp_eq_iff]
  cases charListCmp a.data b.data <;> simp [ordInt]

theorem strComparison_le_trans {a b c : String} :
    strComparison a b ≤ 0 → strComparison b c ≤ 0 → strComparison a c ≤ 0 := by
  unfold strComparison
  intro h1 h2
  have k1 : charListCmp a.data b.data ≠ .gt := by
    intro h; rw [h] at h1; simp [ordInt] at h1
  have k2 : charListCmp b.data c.data ≠ .gt := by
    intro h; rw [h] at h2; simp [ordInt] at h2
  have k3 : charListCmp a.data c.data ≠ .gt := by
    rcases hab : charListCmp a.data b.data with _ | _ | _
    · rcases hbc : charListCmp b.data c.data with _ | _ | _
      · have hlt := charListCmp_lt_trans _ _ _ hab hbc
        simp [hlt]
      · have heq : b.data = c.data := (charListCmp_eq_iff _ _).1 hbc
        rw [← heq]; simp [hab]
      · exact absurd hbc k2
    · have heq : a.data = b.data := (charListCmp_eq_iff _ _).1 hab
      rw [heq]; exact k2
    · exact absurd hab k1
  rcases h : charListCmp a.data c.data with _ | _ | _
  · simp [ordInt]
  · simp [ordInt]
  · exact absurd h k3

theorem strComparison_total (a b : String) : strComparison a b ≤ 0 ∨ strComparison b a ≤ 0 := by
  rw [strComparison_neg a b]
  omega

/-! ### Uniqueness of sorted permutations under local antisymmetry -/

/-- Two sorted permutations of each other are equal, needing antisymmetry
only on the members of the lists (not globally on the type). -/
theorem sorted_unique {α : Type} {r : α → α → Prop} :
    ∀ {l₁ l₂ : List α}, l₁.Perm l₂ → l₁.Pairwise r → l₂.Pairwise r →
      (∀ a ∈ l₁, ∀ b ∈ l₁, r a b → r b a → a = b) → l₁ = l₂ := by
  intro l₁
  induction l₁ with
  | nil =>
    intro l₂ hp _ _ _
    exact (List.perm_nil.1 hp.symm).symm
  | cons a t₁ ih =>
    intro l₂ hp hs₁ hs₂ hanti
    cases l₂ with
    | nil => exact absurd (List.perm_nil.1 hp) (List.cons_ne_nil a t₁)
    | cons b t₂ =>
      have hmem_a : a ∈ b :: t₂ := hp.mem_iff.1 (List.mem_cons_self a t₁)
      have hmem_b : b ∈ a :: t₁ := hp.mem_iff.2 (List.mem_cons_self b t₂)
      have hab : a = b := by
        by_cases h : a = b
        · exact h
        · have ha₂ : a ∈ t₂ := by
            rcases List.mem_cons.1 hmem_a with h' | h'
            · exact absurd h' h
            · exact h'
          have hb₁ : b ∈ t₁ := by
            rcases List.mem_cons.1 hmem_b with h' | h'
            · exact absurd h'.symm h
            · exact h'
          have hr_ab : r a b := (List.pairwise_cons.1 hs₁).1 b hb₁
          have hr_ba : r b a := (List.pairwise_cons.1 hs₂).1 a ha₂
          exact hanti a (List.mem_cons_self a t₁) b (List.mem_cons_of_mem a hb₁) hr_ab hr_ba
      subst hab
      have hpt : t₁.Perm t₂ := (List.perm_cons a).1 hp
      have ht : t₁ = t₂ :=
        ih hpt (List.pairwise_cons.1 hs₁).2 (List.pairwise_cons.1 hs₂).2
          (fun x hx y hy => hanti x (List.mem_cons_of_mem a hx) y (List.mem_cons_of_mem a hy))
      rw [ht]

/-! ### Data model (src/types/index.ts and the page's Web Storage) -/

/-- A single record of `localStorage` / `sessionStorage` (interface
`StorageEntry` in `src/types/index.ts`). -/
structure StorageEntry where
  key : String
  value : String
  deriving DecidableEq

/-- The content of one page storage area: an insertion-ordered list of
entries. Well-formed states have pairwise distinct keys. -/
abbrev Storage := List StorageEntry

/-- Distinctness of keys, the invariant the browser maintains for a storage
area. -/
def storageWF (s : Storage) : Prop := (s.map StorageEntry.key).Nodup

/-- One browser tab's page context: its two storage areas. -/
structure Tab where
  localStore : Storage
  sessionStore : Storage
  deriving DecidableEq

/-- The TypeScript type `StorageType` is the string union
`"local" | "session"`; it is modelled as the strings themselves, since the
injected functions branch on `type === "local"`. -/
abbrev StorageType := String

/-- Storage area selected by the injected functions' conditional
`type === "local" ? localStorage : sessionStorage`. -/
def Tab.storageOf (tb : Tab) (t : StorageType) : Storage :=
  if t = "local" then tb.localStore else tb.sessionStore

/-- Replace the storage area the same conditional selects. -/
def Tab.withStorage (tb : Tab) (t : StorageType) (s : Storage) : Tab :=
  if t = "local" then Tab.mk s tb.sessionStore else Tab.mk tb.localStore s

/-- Web Storage `setItem`: overwrite the value of an existing key in place,
otherwise append the new entry. -/
def setItem : Storage → String → String → Storage
  | [], k, v => [StorageEntry.mk k v]
  | e :: es, k, v => if e.key = k then StorageEntry.mk k v :: es else e :: setItem es k v

/-- Web Storage `removeItem`: drop the entry of the key, if present. -/
def removeItem : Storage → String → Storage
  | [], _ => []
  | e :: es, k => if e.key = k then es else e :: removeItem es k

/-! ### StorageService (src/services/storage.service.ts) -/

namespace StorageService

/-- Ascending key order used by the service and by lemmas about it. -/
def entryLe (a b : StorageEntry) : Prop := strComparison a.key b.key ≤ 0

instance : DecidableRel entryLe :=
  fun a b => inferInstanceAs (Decidable (strComparison a.key b.key ≤ 0))

/-- Sorting step of `getAllEntries`: the injected function ends with
`entries.sort((a, b) => a.key.localeCompare(b.key))`. JS `sort` is modelled
as a comparison sort (a sorted permutation of its input). -/
def sortEntries (s : Storage) : Storage := List.insertionSort entryLe s

/-- Result list of `getAllEntries`: resolving the active tab yields
`tabs[0]`; without one the promise resolves with `[]`, otherwise the
injected function enumerates the selected storage area and returns it
sorted by key. -/
def getAllEntriesList (tab : Option Tab) (t : StorageType) : List StorageEntry :=
  match tab with
  | none => []
  | some tb => sortEntries (tb.storageOf t)

/-- The promise of `getAllEntries`: it only ever resolves (never rejects). -/
def getAllEntries (tab : Option Tab) (t : StorageType) : Except String (List StorageEntry) :=
  .ok (getAllEntriesList tab t)

/-- The promise of `setEntry`: rejects with "No active tab found" without an
active tab, otherwise injects `storage.setItem(k, v)` and resolves. -/
def setEntry (tab : Option Tab) (t : StorageType) (k v : String) : Except String Tab :=
  match tab with
  | none => .error "No active tab found"
  | some tb => .ok (tb.withStorage t (setItem (tb.storageOf t) k v))

/-- The promise of `deleteEntry`: rejects with "No active tab found" without
an active tab, otherwise injects `storage.removeItem(k)` and resolves. -/
def deleteEntry (tab : Option Tab) (t : StorageType) (k : String) : Except String Tab :=
  match tab with
  | none => .error "No active tab found"
  | some tb => .ok (tb.withStorage t (removeItem (tb.storageOf t) k))

/-- The promise of `clearAll`: rejects with "No active tab found" without an
active tab, otherwise injects `storage.clear()` and resolves. -/
def clearAll (tab : Option Tab) (t : StorageType) : Except String Tab :=
  match tab with
  | none => .error "No active tab found"
  | some tb => .ok (tb.withStorage t [])

/-- Assignment `acc[key] = value` on a plain JS object kept as an
insertion-ordered association list: overwrite in place, or append. -/
def recordSet : List (String × String) → String → String → List (String × String)
  | [], k, v => [(k, v)]
  | p :: ps, k, v => if p.1 = k then (k, v) :: ps else p :: recordSet ps k v

/-- Accumulator of `exportEntries`: `entries.reduce((acc, entry) =>
{ acc[entry.key] = entry.value; return acc; }, {})`. -/
def exportRecord (tab : Option Tab) (t : StorageType) : List (String × String) :=
  (getAllEntriesList tab t).foldl (fun acc e => recordSet acc e.key e.value) []

/-- The text `exportEntries` resolves with: `JSON.stringify(exportData,
null, 2)` applied to the accumulated record. Serialization itself is the
browser builtin, passed in as `stringify`. -/
def exportEntries (stringify : List (String × String) → String)
    (tab : Option Tab) (t : StorageType) : String :=
  stringify (exportRecord tab t)

/-- Sequential write loop of `importEntries` over `Object.entries(data)`:
each pair goes through `setEntry`; an error aborts the remaining writes and
leaves the prior ones applied. The pair returned is (outcome, final state of
the active tab). -/
def importLoop (tab : Option Tab) (t : StorageType) :
    List (String × String) → Except String Unit × Option Tab
  | [] => (.ok (), tab)
  | (k, v) :: rest =>
    match setEntry tab t k v with
    | .error e => (.error e, tab)
    | .ok tb' => importLoop (some tb') t rest

/-- The promise of `importEntries`: `JSON.parse` (browser builtin, passed in
as `parse`, its result's values already coerced by `String(value)`) and the
write loop both run inside one `try`; any exception is replaced by
`new Error("Invalid JSON format")`. The pair returned is (outcome, final
state of the active tab). -/
def importEntries (parse : String → Option (List (String × String)))
    (tab : Option Tab) (t : StorageType) (jsonData : String) :
    Except String Unit × Option Tab :=
  match parse jsonData with
  | none => (.error "Invalid JSON format", tab)
  | some pairs =>
    match importLoop tab t pairs with
    | (.error _, tab') => (.error "Invalid JSON format", tab')
    | (.ok _, tab') => (.ok (), tab')

end StorageService

/-! ### Cookies (src/adapters/cookies.ts and the dashboard's Cookie interface) -/

/-- Same-site policy union type `'strict' | 'lax' | 'no_restriction'`. -/
inductive SameSite where
  | strict
  | lax
  | no_restriction
  deriving DecidableEq

/-- String carried by each `SameSite` value in the source. -/
def SameSite.toStr : SameSite → String
  | .strict => "strict"
  | .lax => "lax"
  | .no_restriction => "no_restriction"

/-- Cookie record as the dashboard's `Cookie` interface declares it.
`expirationDate` is an optional timestamp in seconds since the epoch
(an integer in this model; fractional seconds play no role in the claims). -/
structure Cookie where
  name : String
  value : String
  domain : String
  path : String
  secure : Bool
  httpOnly : Bool
  sameSite : SameSite
  expirationDate : Option Int
  hostOnly : Bool
  session : Bool
  storeId : String
  deriving DecidableEq

/-- Cookie with the defaults the dashboard's fallback constructor uses,
handy for concrete instances. -/
def mkCookieExp (n v d : String) (e : Option Int) : Cookie :=
  Cookie.mk n v d "/" false false .lax e true true "0"

/-- Session cookie (no expiration) with given name, value and domain. -/
def mkCookie (n v d : String) : Cookie := mkCookieExp n v d none

/-- Options object `BrowserCookieOptions` of the adapter; `set` requires
`domain` (`BrowserCookieOptions & { domain: string }`), so `domain` is a
plain field here. -/
structure BrowserCookieOptions where
  url : Option String
  path : Option String
  domain : String
  secure : Option Bool
  httpOnly : Option Bool
  expirationDate : Option Int
  sameSite : Option SameSite
  storeId : Option String
  deriving DecidableEq

/-- Argument object the adapter passes to the browser's `cookies.set`. -/
structure SetDetails where
  name : String
  value : String
  url : String
  path : Option String
  domain : String
  secure : Option Bool
  httpOnly : Option Bool
  sameSite : Option SameSite
  expirationDate : Option Int
  storeId : Option String
  deriving DecidableEq

/-- Argument object the adapter passes to the browser's `cookies.remove`. -/
structure RemoveDetails where
  name : String
  url : String
  deriving DecidableEq

namespace BrowserCookieAdapter

/-- Host part of `inferUrl`: `opts.domain.replace(/^\./, "")` removes one
leading dot, if any. -/
def stripLeadingDot (d : String) : String :=
  match d.data with
  | [] => d
  | c :: rest => if c = '.' then String.mk rest else d

/-- URL inference of the adapter: `https` when `secure` is truthy else
`http`, host with a single leading dot stripped, path defaulting to "/"
(`opts.path ?? "/"`). -/
def inferUrl (domain : String) (path : Option String) (secure : Option Bool) : String :=
  (if secure = some true then "https" else "http") ++ "://" ++
    stripLeadingDot domain ++ path.getD "/"

/-- Details object built by `set`: the url is `options.url ??
this.inferUrl(options)`, the remaining fields are copied through. -/
def setDetails (name value : String) (o : BrowserCookieOptions) : SetDetails :=
  SetDetails.mk name value
    (o.url.getD (inferUrl o.domain o.path o.secure))
    o.path o.domain o.secure o.httpOnly o.sameSite o.expirationDate o.storeId

/-- Adapter `set`: one awaited call of the browser API with the built
details; its outcome is the adapter's outcome. -/
def set (api : SetDetails → Except String Unit) (name value : String)
    (o : BrowserCookieOptions) : Except String Unit :=
  api (setDetails name value o)

/-- Details object built by `delete(name, domain, path = "/")`: the url is
inferred from domain and path only (`this.inferUrl({ domain, path })`), so
no secure flag is ever passed. An omitted path argument is `none`. -/
def deleteDetails (name domain : String) (path : Option String) : RemoveDetails :=
  RemoveDetails.mk name (inferUrl domain (some (path.getD "/")) none)

/-- Adapter `delete`: one awaited call of the browser API with the built
details; its outcome is the adapter's outcome. -/
def delete (api : RemoveDetails → Except String Unit) (name domain : String)
    (path : Option String) : Except String Unit :=
  api (deleteDetails name domain path)

/-- Adapter `get`: `(await api.getAll({ domain })).find(c => c.name ===
name)?.value`. The browser query result is the `getAll` parameter. -/
def get (getAll : String → List Cookie) (name domain : String) : Option String :=
  ((getAll domain).find? (fun c => c.name == name)).map Cookie.value

/-- JavaScript double negation `!!` on the optional string `get` returns:
`undefined` and the empty string are falsy. -/
def jsTruthyStr : Option String → Bool
  | none => false
  | some v => v ≠ ""

/-- Adapter `has`: `!!(await this.get(name, domain))`. -/
def has (getAll : String → List Cookie) (name domain : String) : Bool :=
  jsTruthyStr (get getAll name domain)

end BrowserCookieAdapter

/-! ### Dashboard view (cookie filter, sort and derived domain list) -/

namespace Dashboard

/-- Worker of `jsSetDedup`, carrying the elements already emitted. -/
def jsSetDedupAux (seen : List String) : List String → List String
  | [] => []
  | x :: xs => if x ∈ seen then jsSetDedupAux seen xs else x :: jsSetDedupAux (x :: seen) xs

/-- Duplicate removal of `[...new Set(xs)]`: keep the first occurrence of
each element, in insertion order. -/
def jsSetDedup (l : List String) : List String := jsSetDedupAux [] l

/-- Ascending string order used by JS default `.sort()` (code-unit order). -/
def strLe (a b : String) : Prop := strComparison a b ≤ 0

instance : DecidableRel strLe :=
  fun a b => inferInstanceAs (Decidable (strComparison a b ≤ 0))

/-- JS default `.sort()` on strings, as a comparison sort. -/
def sortStrings (l : List String) : List String := List.insertionSort strLe l

/-- Derived domain options: `["all", ...uniqueDomains]` where
`uniqueDomains = [...new Set(cookies.map(c => c.domain))].sort()`. -/
def domains (cookies : List Cookie) : List String :=
  "all" :: sortStrings (jsSetDedup (cookies.map Cookie.domain))

/-- Modelled from the spec's words for comparison with `domains`: the set
`{"all"}` united with the distinct cookie domains, with the sort applied to
the whole union. -/
def domainsSpecReading (cookies : List Cookie) : List String :=
  sortStrings (jsSetDedup ("all" :: cookies.map Cookie.domain))

/-- Predicate of the expired-only stage: `cookie.expirationDate &&
cookie.expirationDate < now`. A missing timestamp is `undefined` (falsy)
and the numeric value 0 is falsy as well. -/
def expiredPred (now : Int) (c : Cookie) : Bool :=
  match c.expirationDate with
  | none => false
  | some e => decide (e ≠ 0) && decide (e < now)

/-- Expired-only stage of the filter pipeline, when the toggle is on. -/
def expiredFilter (now : Int) (cookies : List Cookie) : List Cookie :=
  cookies.filter (expiredPred now)

/-- Sort fields of the dashboard (`sortField : keyof Cookie`). The fields
reachable from the rendered headers are `name` and `value`; the other
string- and boolean-typed fields are included, the optional numeric
`expirationDate` is not selectable anywhere in the view. -/
inductive SortField where
  | name
  | value
  | domain
  | path
  | sameSite
  | storeId
  | secure
  | httpOnly
  | hostOnly
  | session
  deriving DecidableEq

/-- Sort direction toggle. -/
inductive SortDir where
  | asc
  | desc
  deriving DecidableEq

/-- JS comparator value on two booleans (`<` and `>` coerce them to 0/1). -/
def boolComparison (a b : Bool) : Int :=
  match a, b with
  | false, true => -1
  | true, false => 1
  | _, _ => 0

/-- Comparator core of the dashboard sort: `comparison = -1` when
`aVal < bVal`, `1` when `aVal > bVal`, else `0`, on the selected field. -/
def comparison (f : SortField) (a b : Cookie) : Int :=
  match f with
  | .name => strComparison a.name b.name
  | .value => strComparison a.value b.value
  | .domain => strComparison a.domain b.domain
  | .path => strComparison a.path b.path
  | .sameSite => strComparison a.sameSite.toStr b.sameSite.toStr
  | .storeId => strComparison a.storeId b.storeId
  | .secure => boolComparison a.secure b.secure
  | .httpOnly => boolComparison a.httpOnly b.httpOnly
  | .hostOnly => boolComparison a.hostOnly b.hostOnly
  | .session => boolComparison a.session b.session

/-- Equality of the selected field's values on two cookies (a "tie"). -/
def fieldValEq (f : SortField) (a b : Cookie) : Prop :=
  match f with
  | .name => a.name = b.name
  | .value => a.value = b.value
  | .domain => a.domain = b.domain
  | .path => a.path = b.path
  | .sameSite => a.sameSite = b.sameSite
  | .storeId => a.storeId = b.storeId
  | .secure => a.secure = b.secure
  | .httpOnly => a.httpOnly = b.httpOnly
  | .hostOnly => a.hostOnly = b.hostOnly
  | .session => a.session = b.session

instance : ∀ (f : SortField) (a b : Cookie), Decidable (fieldValEq f a b) := by
  intro f a b
  cases f <;> (unfold fieldValEq; infer_instance)

/-- Full comparator handed to `filtered.sort`: the comparison, negated when
the direction is "desc". -/
def cookieCmp (f : SortField) (dir : SortDir) (a b : Cookie) : Int :=
  if dir = .desc then -(comparison f a b) else comparison f a b

/-- Sort relation the comparator induces: a sorts no later than b exactly
when the comparator value is at most 0. -/
def cookieLe (f : SortField) (dir : SortDir) (a b : Cookie) : Prop :=
  cookieCmp f dir a b ≤ 0

instance : ∀ f dir, DecidableRel (cookieLe f dir) :=
  fun f dir a b => inferInstanceAs (Decidable (cookieCmp f dir a b ≤ 0))

/-- The dashboard sort of the filtered list, as a comparison sort under the
comparator's relation. -/
def sortCookies (f : SortField) (dir : SortDir) (cookies : List Cookie) : List Cookie :=
  List.insertionSort (cookieLe f dir) cookies

end Dashboard

/-! ### Helper lemmas about the embedded operations -/

theorem entryLe_total (a b : StorageEntry) :
    StorageService.entryLe a b ∨ StorageService.entryLe b a :=
  strComparison_total a.key b.key

theorem entryLe_trans {a b c : StorageEntry} :
    StorageService.entryLe a b → StorageService.entryLe b c → StorageService.entryLe a c :=
  strComparison_le_trans

theorem sortEntries_perm (s : Storage) : (StorageService.sortEntries s).Perm s :=
  List.perm_insertionSort _ s

theorem sortEntries_sorted (s : Storage) :
    (StorageService.sortEntries s).Pairwise StorageService.entryLe := by
  haveI : IsTotal StorageEntry StorageService.entryLe := ⟨entryLe_total⟩
  haveI : IsTrans StorageEntry StorageService.entryLe := ⟨fun _ _ _ => entryLe_trans⟩
  exact List.sorted_insertionSort _ s

theorem strLe_total (a b : String) : Dashboard.strLe a b ∨ Dashboard.strLe b a :=
  strComparison_total a b

theorem strLe_trans {a b c : String} :
    Dashboard.strLe a b → Dashboard.strLe b c → Dashboard.strLe a c :=
  strComparison_le_trans

theorem sortStrings_perm (l : List String) : (Dashboard.sortStrings l).Perm l :=
  List.perm_insertionSort _ l

theorem sortStrings_sorted (l : List String) :
    (Dashboard.sortStrings l).Pairwise Dashboard.strLe := by
  haveI : IsTotal String Dashboard.strLe := ⟨strLe_total⟩
  haveI : IsTrans String Dashboard.strLe := ⟨fun _ _ _ => strLe_trans⟩
  exact List.sorted_insertionSort _ l

theorem jsSetDedupAux_mem (a : String) :
    ∀ (l seen : List String), a ∈ Dashboard.jsSetDedupAux seen l ↔ a ∈ l ∧ a ∉ seen := by
  intro l
  induction l with
  | nil => intro seen; simp [Dashboard.jsSetDedupAux]
  | cons x xs ih =>
    intro seen
    by_cases hx : x ∈ seen
    · rw [show Dashboard.jsSetDedupAux seen (x :: xs) = Dashboard.jsSetDedupAux seen xs by
        simp [Dashboard.jsSetDedupAux, hx]]
      rw [ih seen]
      constructor
      · rintro ⟨h1, h2⟩; exact ⟨List.mem_cons_of_mem x h1, h2⟩
      · rintro ⟨h1, h2⟩
        rcases List.mem_cons.1 h1 with h | h
        · subst h; exact absurd hx h2
        · exact ⟨h, h2⟩
    · rw [show Dashboard.jsSetDedupAux seen (x :: xs) =
          x :: Dashboard.jsSetDedupAux (x :: seen) xs by
        simp [Dashboard.jsSetDedupAux, hx]]
      rw [List.mem_cons, ih (x :: seen)]
      constructor
      · rintro (h | ⟨h1, h2⟩)
        · subst h; exact ⟨List.mem_cons_self a xs, hx⟩
        · exact ⟨List.mem_cons_of_mem x h1, fun hs => h2 (List.mem_cons_of_mem x hs)⟩
      · rintro ⟨h1, h2⟩
        rcases List.mem_cons.1 h1 with h | h
        · exact Or.inl h
        · by_cases hax : a = x
          · exact Or.inl hax
          · exact Or.inr ⟨h, fun hs => by
              rcases List.mem_cons.1 hs with h' | h'
              · exact hax h'
              · exact h2 h'⟩

theorem jsSetDedupAux_nodup : ∀ (l seen : List String), (Dashboard.jsSetDedupAux seen l).Nodup := by
  intro l
  induction l with
  | nil => intro seen; simp [Dashboard.jsSetDedupAux]
  | cons x xs ih =>
    intro seen
    by_cases hx : x ∈ seen
    · rw [show Dashboard.jsSetDedupAux seen (x :: xs) = Dashboard.jsSetDedupAux seen xs by
        simp [Dashboard.jsSetDedupAux, hx]]
      exact ih seen
    · rw [show Dashboard.jsSetDedupAux seen (x :: xs) =
          x :: Dashboard.jsSetDedupAux (x :: seen) xs by
        simp [Dashboard.jsSetDedupAux, hx]]
      rw [List.nodup_cons]
      refine ⟨fun hmem => ?_, ih (x :: seen)⟩
      exact ((jsSetDedupAux_mem x xs (x :: seen)).1 hmem).2 (List.mem_cons_self x seen)

theorem jsSetDedup_mem (a : String) (l : List String) : a ∈ Dashboard.jsSetDedup l ↔ a ∈ l := by
  unfold Dashboard.jsSetDedup
  rw [jsSetDedupAux_mem]
  simp

theorem jsSetDedup_nodup (l : List String) : (Dashboard.jsSetDedup l).Nodup :=
  jsSetDedupAux_nodup l []

theorem boolComparison_neg (a b : Bool) :
    Dashboard.boolComparison b a = -Dashboard.boolComparison a b := by
  cases a <;> cases b <;> rfl

theorem boolComparison_le_trans (a b c : Bool) :
    Dashboard.boolComparison a b ≤ 0 → Dashboard.boolComparison b c ≤ 0 →
      Dashboard.boolComparison a c ≤ 0 := by
  cases a <;> cases b <;> cases c <;> simp [Dashboard.boolComparison]

theorem boolComparison_eq_zero (a b : Bool) : Dashboard.boolComparison a b = 0 ↔ a = b := by
  cases a <;> cases b <;> simp [Dashboard.boolComparison]

theorem sameSite_toStr_inj (x y : SameSite) : x.toStr = y.toStr ↔ x = y := by
  cases x <;> cases y <;> simp [SameSite.toStr]

theorem comparison_neg (f : Dashboard.SortField) (a b : Cookie) :
    Dashboard.comparison f b a = -Dashboard.comparison f a b := by
  cases f <;> simp only [Dashboard.comparison] <;>
    first
      | exact strComparison_neg _ _
      | exact boolComparison_neg _ _

theorem comparison_le_trans (f : Dashboard.SortField) {a b c : Cookie} :
    Dashboard.comparison f a b ≤ 0 → Dashboard.comparison f b c ≤ 0 →
      Dashboard.comparison f a c ≤ 0 := by
  cases f <;> simp only [Dashboard.comparison] <;>
    first
      | exact fun h1 h2 => strComparison_le_trans h1 h2
      | exact fun h1 h2 => boolComparison_le_trans _ _ _ h1 h2

theorem comparison_eq_zero (f : Dashboard.SortField) (a b : Cookie) :
    Dashboard.comparison f a b = 0 ↔ Dashboard.fieldValEq f a b := by
  cases f <;> simp only [Dashboard.comparison, Dashboard.fieldValEq] <;>
    first
      | exact strComparison_eq_zero _ _
      | exact (strComparison_eq_zero _ _).trans (sameSite_toStr_inj _ _)
      | exact boolComparison_eq_zero _ _

theorem cookieLe_asc_iff (f : Dashboard.SortField) (a b : Cookie) :
    Dashboard.cookieLe f .asc a b ↔ Dashboard.comparison f a b ≤ 0 := by
  simp [Dashboard.cookieLe, Dashboard.cookieCmp]

theorem cookieLe_desc_iff (f : Dashboard.SortField) (a b : Cookie) :
    Dashboard.cookieLe f .desc a b ↔ Dashboard.cookieLe f .asc b a := by
  rw [cookieLe_asc_iff]
  simp only [Dashboard.cookieLe, Dashboard.cookieCmp, if_pos]
  rw [comparison_neg f b a]
  omega

theorem cookieLe_total (f : Dashboard.SortField) (dir : Dashboard.SortDir) (a b : Cookie) :
    Dashboard.cookieLe f dir a b ∨ Dashboard.cookieLe f dir b a := by
  have h := comparison_neg f a b
  cases dir <;> simp only [Dashboard.cookieLe, Dashboard.cookieCmp] <;> simp <;> omega

theorem cookieLe_trans (f : Dashboard.SortField) (dir : Dashboard.SortDir) {a b c : Cookie} :
    Dashboard.cookieLe f dir a b → Dashboard.cookieLe f dir b c →
      Dashboard.cookieLe f dir a c := by
  cases dir
  · simp only [cookieLe_asc_iff]
    exact comparison_le_trans f
  · simp only [cookieLe_desc_iff, cookieLe_asc_iff]
    intro h1 h2
    exact comparison_le_trans f h2 h1

theorem sortCookies_perm (f : Dashboard.SortField) (dir : Dashboard.SortDir)
    (cookies : List Cookie) : (Dashboard.sortCookies f dir cookies).Perm cookies :=
  List.perm_insertionSort _ cookies

theorem sortCookies_sorted (f : Dashboard.SortField) (dir : Dashboard.SortDir)
    (cookies : List Cookie) :
    (Dashboard.sortCookies f dir cookies).Pairwise (Dashboard.cookieLe f dir) := by
  haveI : IsTotal Cookie (Dashboard.cookieLe f dir) := ⟨cookieLe_total f dir⟩
  haveI : IsTrans Cookie (Dashboard.cookieLe f dir) := ⟨fun _ _ _ => cookieLe_trans f dir⟩
  exact List.sorted_insertionSort _ cookies

instance (s : Storage) : Decidable (storageWF s) :=
  inferInstanceAs (Decidable ((s.map StorageEntry.key).Nodup))

theorem recordSet_not_mem (k v : String) :
    ∀ acc : List (String × String), k ∉ acc.map Prod.fst →
      StorageService.recordSet acc k v = acc ++ [(k, v)] := by
  intro acc
  induction acc with
  | nil => intro _; rfl
  | cons p ps ih =>
    intro h
    simp only [List.map_cons, List.mem_cons] at h
    push_neg at h
    simp only [StorageService.recordSet]
    rw [if_neg (fun heq => h.1 heq.symm), ih h.2]
    rfl

theorem foldl_recordSet :
    ∀ (l : List StorageEntry) (acc : List (String × String)),
      (l.map StorageEntry.key).Nodup →
      (∀ e ∈ l, e.key ∉ acc.map Prod.fst) →
      l.foldl (fun acc e => StorageService.recordSet acc e.key e.value) acc =
        acc ++ l.map (fun e => (e.key, e.value)) := by
  intro l
  induction l with
  | nil => intro acc _ _; simp
  | cons e es ih =>
    intro acc hnd hdisj
    simp only [List.map_cons, List.nodup_cons] at hnd
    simp only [List.foldl_cons]
    rw [recordSet_not_mem e.key e.value acc (hdisj e (List.mem_cons_self e es))]
    rw [ih (acc ++ [(e.key, e.value)]) hnd.2 ?_]
    · simp
    · intro e' he'
      simp only [List.map_append, List.mem_append]
      rintro (h | h)
      · exact hdisj e' (List.mem_cons_of_mem e he') h
      · simp only [List.map_cons, List.map_nil, List.mem_singleton] at h
        exact hnd.1 (List.mem_map.2 ⟨e', he', h⟩)

theorem exportRecord_eq (tb : Tab) (t : StorageType) (hWF : storageWF (tb.storageOf t)) :
    StorageService.exportRecord (some tb) t =
      (StorageService.sortEntries (tb.storageOf t)).map (fun e => (e.key, e.value)) := by
  unfold StorageService.exportRecord StorageService.getAllEntriesList
  have hnd : ((StorageService.sortEntries (tb.storageOf t)).map StorageEntry.key).Nodup :=
    ((sortEntries_perm _).map StorageEntry.key).nodup_iff.2 hWF
  rw [foldl_recordSet _ [] hnd (by intro e _; simp)]
  simp

theorem setItem_mem_self :
    ∀ (s : Storage) (k v : String), storageWF s → StorageEntry.mk k v ∈ s →
      setItem s k v = s := by
  intro s
  induction s with
  | nil => intro k v _ hmem; simp at hmem
  | cons e es ih =>
    intro k v hWF hmem
    unfold storageWF at hWF
    simp only [List.map_cons, List.nodup_cons] at hWF
    simp only [setItem]
    by_cases hk : e.key = k
    · rw [if_pos hk]
      rcases List.mem_cons.1 hmem with h | h
      · rw [h]
      · exact absurd (hk ▸ List.mem_map.2 ⟨StorageEntry.mk k v, h, rfl⟩) hWF.1
    · rw [if_neg hk]
      rcases List.mem_cons.1 hmem with h | h
      · exact absurd (congrArg StorageEntry.key h).symm hk
      · rw [ih k v hWF.2 h]

theorem tab_withStorage_self (tb : Tab) (t : StorageType) :
    tb.withStorage t (tb.storageOf t) = tb := by
  unfold Tab.withStorage Tab.storageOf
  split <;> rfl

theorem importLoop_id (tb : Tab) (t : StorageType) :
    ∀ pairs : List (String × String),
      storageWF (tb.storageOf t) →
      (∀ p ∈ pairs, StorageEntry.mk p.1 p.2 ∈ tb.storageOf t) →
      StorageService.importLoop (some tb) t pairs = (.ok (), some tb) := by
  intro pairs hWF
  induction pairs with
  | nil => intro _; rfl
  | cons p ps ih =>
    intro hmem
    obtain ⟨k, v⟩ := p
    simp only [StorageService.importLoop, StorageService.setEntry]
    rw [setItem_mem_self _ k v hWF (hmem (k, v) (List.mem_cons_self _ _))]
    rw [tab_withStorage_self]
    exact ih fun q hq => hmem q (List.mem_cons_of_mem _ hq)

/-! ### Claim theorems -/

/-- C1: for every storage type, when resolving the active tab yields no tab,
`getAllEntries` resolves with the empty list while `setEntry`, `deleteEntry`
and `clearAll` reject with the explicit "No active tab found" error. -/
theorem claim1_no_active_tab (t : StorageType) (k v : String) :
    StorageService.getAllEntries none t = .ok [] ∧
    StorageService.setEntry none t k v = .error "No active tab found" ∧
    StorageService.deleteEntry none t k = .error "No active tab found" ∧
    StorageService.clearAll none t = .error "No active tab found" :=
  ⟨rfl, rfl, rfl, rfl⟩

/-- C2: for every storage type and every input string the JSON parser
rejects, `importEntries` rejects with the "Invalid JSON format" error and
the active tab's storage is unchanged (the write loop is never entered). -/
theorem claim2_import_invalid_json (parse : String → Option (List (String × String)))
    (tab : Option Tab) (t : StorageType) (txt : String) (hbad : parse txt = none) :
    StorageService.importEntries parse tab t txt = (.error "Invalid JSON format", tab) := by
  unfold StorageService.importEntries
  rw [hbad]

/-- Witness for C2 at the spec's example input "{not json" (written with
escaped braces), with a parser that rejects it. -/
theorem claim2_witness :
    (fun (_ : String) => (none : Option (List (String × String)))) "\x7bnot json" = none ∧
    StorageService.importEntries (fun _ => none) (some (Tab.mk [] [])) "local" "\x7bnot json" =
      (.error "Invalid JSON format", some (Tab.mk [] [])) :=
  ⟨rfl, claim2_import_invalid_json (fun _ => none) (some (Tab.mk [] [])) "local" "\x7bnot json" rfl⟩

/-- C3: whenever no explicit url is given, the url the adapter passes to the
browser API has scheme `https` exactly when the secure flag is set (for
`delete`, which has no secure flag, always `http`), host equal to the domain
with one leading dot stripped, and path defaulting to "/". -/
theorem claim3_inferred_url :
    (∀ (n v : String) (o : BrowserCookieOptions), o.url = none →
      (BrowserCookieAdapter.setDetails n v o).url =
        (if o.secure = some true then "https" else "http") ++ "://" ++
          BrowserCookieAdapter.stripLeadingDot o.domain ++ o.path.getD "/") ∧
    (∀ (n d : String) (p : Option String),
      (BrowserCookieAdapter.deleteDetails n d p).url =
        "http://" ++ BrowserCookieAdapter.stripLeadingDot d ++ p.getD "/") := by
  constructor
  · intro n v o hurl
    simp [BrowserCookieAdapter.setDetails, BrowserCookieAdapter.inferUrl, hurl]
  · intro n d p
    simp [BrowserCookieAdapter.deleteDetails, BrowserCookieAdapter.inferUrl]

/-- Witness for C3: a secure cookie on domain ".example.com" with no path
gets url "https://example.com/", and a delete on the same domain with an
omitted path gets url "http://example.com/". -/
theorem claim3_witness :
    (BrowserCookieOptions.mk none none ".example.com" (some true) none none none none).url
        = none ∧
    (BrowserCookieAdapter.setDetails "sid" "v"
        (BrowserCookieOptions.mk none none ".example.com" (some true) none none none none)).url
        = "https://example.com/" ∧
    (BrowserCookieAdapter.deleteDetails "sid" ".example.com" none).url
        = "http://example.com/" := by
  refine ⟨rfl, ?_, ?_⟩
  · rw [claim3_inferred_url.1 "sid" "v" _ rfl]; decide
  · rw [claim3_inferred_url.2 "sid" ".example.com" none]; decide

/-- C4 counterexample: a cookie whose expiration timestamp is 0 is strictly
before now = 100 and carries an expirationDate, yet the expired-only stage
drops it, because the numeric value 0 is falsy in the truthiness test
`cookie.expirationDate && ...`. -/
theorem claim4_cex :
    (mkCookieExp "a" "1" "x.com" (some 0)).expirationDate = some 0 ∧
    ((0 : Int) < 100) ∧
    Dashboard.expiredFilter 100 [mkCookieExp "a" "1" "x.com" (some 0)] = [] :=
  ⟨rfl, by decide, rfl⟩

/-- C4 amended: with the toggle on, the filtered result contains exactly the
cookies of the list whose expirationDate is present, nonzero and strictly
less than now; cookies with no expirationDate, or with expirationDate 0, are
excluded. -/
theorem claim4_amended (now : Int) (cookies : List Cookie) (c : Cookie) :
    c ∈ Dashboard.expiredFilter now cookies ↔
      c ∈ cookies ∧ ∃ e, c.expirationDate = some e ∧ e ≠ 0 ∧ e < now := by
  rcases h : c.expirationDate with _ | e <;>
    simp [Dashboard.expiredFilter, List.mem_filter, Dashboard.expiredPred, h, and_assoc]

/-- C5: with an active tab whose storage has distinct keys (the Web Storage
invariant) and a JSON layer for which parsing inverts serialization on the
exported record, importing the exported text of the same storage type
resolves and leaves the storage's key-to-value mapping exactly as it was
(each write rewrites an existing entry with its own value). -/
theorem claim5_round_trip
    (stringify : List (String × String) → String)
    (parse : String → Option (List (String × String)))
    (tb : Tab) (t : StorageType)
    (hWF : storageWF (tb.storageOf t))
    (hjson : parse (StorageService.exportEntries stringify (some tb) t) =
      some (StorageService.exportRecord (some tb) t)) :
    StorageService.importEntries parse (some tb) t
        (StorageService.exportEntries stringify (some tb) t) = (.ok (), some tb) := by
  have hloop : StorageService.importLoop (some tb) t
      (StorageService.exportRecord (some tb) t) = (.ok (), some tb) := by
    apply importLoop_id tb t _ hWF
    intro p hp
    rw [exportRecord_eq tb t hWF] at hp
    rcases List.mem_map.1 hp with ⟨e, he, hpe⟩
    have hes : e ∈ tb.storageOf t := (sortEntries_perm _).mem_iff.1 he
    rw [← hpe]
    exact hes
  simp only [StorageService.importEntries, hjson, hloop]

/-- Witness for C5: localStorage a = "1", b = "2", a serializer producing
the text "J" and a parser mapping "J" back to the exported record. -/
theorem claim5_witness :
    storageWF ((Tab.mk [StorageEntry.mk "a" "1", StorageEntry.mk "b" "2"] []).storageOf
        "local") ∧
    (fun s => if s = "J" then some [("a", "1"), ("b", "2")] else none)
        (StorageService.exportEntries (fun _ => "J")
          (some (Tab.mk [StorageEntry.mk "a" "1", StorageEntry.mk "b" "2"] [])) "local") =
      some (StorageService.exportRecord
        (some (Tab.mk [StorageEntry.mk "a" "1", StorageEntry.mk "b" "2"] [])) "local") ∧
    StorageService.importEntries
        (fun s => if s = "J" then some [("a", "1"), ("b", "2")] else none)
        (some (Tab.mk [StorageEntry.mk "a" "1", StorageEntry.mk "b" "2"] [])) "local"
        (StorageService.exportEntries (fun _ => "J")
          (some (Tab.mk [StorageEntry.mk "a" "1", StorageEntry.mk "b" "2"] [])) "local") =
      (.ok (), some (Tab.mk [StorageEntry.mk "a" "1", StorageEntry.mk "b" "2"] [])) :=
  ⟨by decide, by decide,
    claim5_round_trip (fun _ => "J") (fun s => if s = "J" then some [("a", "1"), ("b", "2")] else none)
      (Tab.mk [StorageEntry.mk "a" "1", StorageEntry.mk "b" "2"] []) "local"
      (by decide) (by decide)⟩

/-- C6: when no two cookies of the list tie on the selected sort field,
sorting descending yields exactly the reverse of sorting ascending. -/
theorem claim6_desc_is_reverse_of_asc (f : Dashboard.SortField) (cookies : List Cookie)
    (h : ∀ a ∈ cookies, ∀ b ∈ cookies, Dashboard.fieldValEq f a b → a = b) :
    Dashboard.sortCookies f .desc cookies = (Dashboard.sortCookies f .asc cookies).reverse := by
  have hpc : (Dashboard.sortCookies f .desc cookies).reverse.Perm cookies :=
    (List.reverse_perm _).trans (sortCookies_perm f .desc cookies)
  have hperm : (Dashboard.sortCookies f .desc cookies).reverse.Perm
      (Dashboard.sortCookies f .asc cookies) :=
    hpc.trans (sortCookies_perm f .asc cookies).symm
  have hrev_sorted : (Dashboard.sortCookies f .desc cookies).reverse.Pairwise
      (Dashboard.cookieLe f .asc) := by
    rw [List.pairwise_reverse]
    exact (sortCookies_sorted f .desc cookies).imp
      (fun hab => (cookieLe_desc_iff f _ _).1 hab)
  have hanti : ∀ a ∈ (Dashboard.sortCookies f .desc cookies).reverse,
      ∀ b ∈ (Dashboard.sortCookies f .desc cookies).reverse,
      Dashboard.cookieLe f .asc a b → Dashboard.cookieLe f .asc b a → a = b := by
    intro a ha b hb h1 h2
    have h1' : Dashboard.comparison f a b ≤ 0 := (cookieLe_asc_iff f a b).1 h1
    have h2' : Dashboard.comparison f b a ≤ 0 := (cookieLe_asc_iff f b a).1 h2
    have hne := comparison_neg f a b
    have hzero : Dashboard.comparison f a b = 0 := by omega
    exact h a (hpc.mem_iff.1 ha) b (hpc.mem_iff.1 hb) ((comparison_eq_zero f a b).1 hzero)
  have key : (Dashboard.sortCookies f .desc cookies).reverse =
      Dashboard.sortCookies f .asc cookies :=
    sorted_unique hperm hrev_sorted (sortCookies_sorted f .asc cookies) hanti
  calc Dashboard.sortCookies f .desc cookies
      = (Dashboard.sortCookies f .desc cookies).reverse.reverse :=
        (List.reverse_reverse _).symm
    _ = (Dashboard.sortCookies f .asc cookies).reverse := by rw [key]

/-- Witness for C6: two cookies of distinct names sorted by name; the
descending order is the reverse of the ascending one. -/
theorem claim6_witness :
    (∀ a ∈ [mkCookie "b" "2" "y.com", mkCookie "a" "1" "x.com"],
      ∀ b ∈ [mkCookie "b" "2" "y.com", mkCookie "a" "1" "x.com"],
      Dashboard.fieldValEq .name a b → a = b) ∧
    Dashboard.sortCookies .name .desc [mkCookie "b" "2" "y.com", mkCookie "a" "1" "x.com"] =
      (Dashboard.sortCookies .name .asc
        [mkCookie "b" "2" "y.com", mkCookie "a" "1" "x.com"]).reverse :=
  ⟨by decide,
    claim6_desc_is_reverse_of_asc .name [mkCookie "b" "2" "y.com", mkCookie "a" "1" "x.com"]
      (by decide)⟩

/-- C7: `getAllEntries` on an active tab resolves with a permutation of the
page's storage entries, sorted ascending by key; in particular on a page
whose localStorage is b = "2", a = "1" it resolves with the entries a then
b. -/
theorem claim7_entries_sorted :
    (∀ (tb : Tab) (t : StorageType),
      ∃ l, StorageService.getAllEntries (some tb) t = .ok l ∧
        l.Perm (tb.storageOf t) ∧ l.Pairwise StorageService.entryLe) ∧
    StorageService.getAllEntries
        (some (Tab.mk [StorageEntry.mk "b" "2", StorageEntry.mk "a" "1"] [])) "local" =
      .ok [StorageEntry.mk "a" "1", StorageEntry.mk "b" "2"] := by
  constructor
  · intro tb t
    exact ⟨StorageService.sortEntries (tb.storageOf t), rfl,
      sortEntries_perm _, sortEntries_sorted _⟩
  · rfl

/-- C8 counterexample: with the single cookie domain "a.com" the derived
list is ["all", "a.com"], while the sorted union of {"all"} with the
distinct domains would be ["a.com", "all"] (the string "a.com" sorts before
"all"); the code prepends "all" without merging it into the sort. -/
theorem claim8_cex :
    Dashboard.domains [mkCookie "n" "v" "a.com"] = ["all", "a.com"] ∧
    Dashboard.domainsSpecReading [mkCookie "n" "v" "a.com"] = ["a.com", "all"] ∧
    Dashboard.domains [mkCookie "n" "v" "a.com"] ≠
      Dashboard.domainsSpecReading [mkCookie "n" "v" "a.com"] :=
  ⟨by decide, by decide, by decide⟩

/-- C8 amended: the derived domain-options list is "all" prepended to the
sorted, duplicate-free list of cookie domains; as a set it equals {"all"}
united with the distinct domains, but "all" itself is not merged into the
sort order. -/
theorem claim8_amended (cookies : List Cookie) :
    (Dashboard.domains cookies).head? = some "all" ∧
    (Dashboard.domains cookies).tail.Pairwise Dashboard.strLe ∧
    (Dashboard.domains cookies).tail.Nodup ∧
    (∀ d, d ∈ Dashboard.domains cookies ↔ d = "all" ∨ d ∈ cookies.map Cookie.domain) := by
  refine ⟨rfl, ?_, ?_, ?_⟩
  · exact sortStrings_sorted _
  · exact (sortStrings_perm _).nodup_iff.2 (jsSetDedup_nodup _)
  · intro d
    unfold Dashboard.domains
    rw [List.mem_cons, (sortStrings_perm _).mem_iff, jsSetDedup_mem]

/-- C9 counterexample: during `importEntries`, the underlying write failure
of `setEntry` (here its "No active tab found" rejection) is not surfaced;
the caller sees the substituted "Invalid JSON format" error instead. -/
theorem claim9_cex :
    StorageService.importEntries (fun _ => some [("k", "v")]) none "local" "x" =
      (.error "Invalid JSON format", none) ∧
    StorageService.setEntry none "local" "k" "v" = .error "No active tab found" ∧
    ("Invalid JSON format" : String) ≠ "No active tab found" :=
  ⟨rfl, rfl, by decide⟩

/-- C9 amended: the cookie adapter's `set` and `delete` propagate a browser
API failure unchanged to the caller; `importEntries`, however, wraps its
write loop in the same catch as the parse, so any failure thrown there is
replaced by the "Invalid JSON format" error. -/
theorem claim9_amended :
    (∀ (api : SetDetails → Except String Unit) (n v : String)
        (o : BrowserCookieOptions) (e : String),
      api (BrowserCookieAdapter.setDetails n v o) = .error e →
        BrowserCookieAdapter.set api n v o = .error e) ∧
    (∀ (api : RemoveDetails → Except String Unit) (n d : String)
        (p : Option String) (e : String),
      api (BrowserCookieAdapter.deleteDetails n d p) = .error e →
        BrowserCookieAdapter.delete api n d p = .error e) ∧
    (∀ (parse : String → Option (List (String × String))) (tab : Option Tab)
        (t : StorageType) (txt : String) (pairs : List (String × String))
        (e : String) (tab' : Option Tab),
      parse txt = some pairs →
        StorageService.importLoop tab t pairs = (.error e, tab') →
        StorageService.importEntries parse tab t txt = (.error "Invalid JSON format", tab')) := by
  refine ⟨fun api n v o e h => h, fun api n d p e h => h, ?_⟩
  intro parse tab t txt pairs e tab' hparse hloop
  simp only [StorageService.importEntries, hparse, hloop]

/-- Witness for C9 amended, with a failing browser API on the adapter side
and the no-active-tab write failure on the import side. -/
theorem claim9_witness :
    BrowserCookieAdapter.set (fun _ => .error "boom") "n" "v"
        (BrowserCookieOptions.mk none none "x.com" none none none none none) = .error "boom" ∧
    BrowserCookieAdapter.delete (fun _ => .error "gone") "n" "x.com" none = .error "gone" ∧
    StorageService.importLoop none "local" [("k", "v")] = (.error "No active tab found", none) ∧
    StorageService.importEntries (fun _ => some [("k", "v")]) none "local" "j" =
      (.error "Invalid JSON format", none) :=
  ⟨claim9_amended.1 (fun _ => .error "boom") "n" "v"
      (BrowserCookieOptions.mk none none "x.com" none none none none none) "boom" rfl,
    claim9_amended.2.1 (fun _ => .error "gone") "n" "x.com" none "gone" rfl,
    rfl,
    claim9_amended.2.2 (fun _ => some [("k", "v")]) none "local" "j" [("k", "v")]
      "No active tab found" none rfl rfl⟩

/-- C10: when the first cookie of the browser's per-domain query matching
the name has the empty string as value, `has` returns false, since it tests
the truthiness of the value `get` returns rather than cookie presence. -/
theorem claim10_has_empty_value (getAll : String → List Cookie) (name domain : String)
    (c : Cookie) (hfind : (getAll domain).find? (fun x => x.name == name) = some c)
    (hval : c.value = "") :
    BrowserCookieAdapter.has getAll name domain = false := by
  unfold BrowserCookieAdapter.has BrowserCookieAdapter.get
  rw [hfind]
  simp [BrowserCookieAdapter.jsTruthyStr, hval]

/-- Witness for C10: a jar holding one cookie "sid" with empty value on
"x.com"; `has "sid" "x.com"` is false although the cookie exists. -/
theorem claim10_witness :
    ((fun (_ : String) => [mkCookie "sid" "" "x.com"]) "x.com").find?
        (fun x => x.name == "sid") = some (mkCookie "sid" "" "x.com") ∧
    (mkCookie "sid" "" "x.com").value = "" ∧
    BrowserCookieAdapter.has (fun _ => [mkCookie "sid" "" "x.com"]) "sid" "x.com" = false :=
  ⟨rfl, rfl,
    claim10_has_empty_value (fun _ => [mkCookie "sid" "" "x.com"]) "sid" "x.com"
      (mkCookie "sid" "" "x.com") rfl rfl⟩

end Inspektio
